import Mathlib

/-!
Shallow embedding of the checkpoint-merging core of `sdxl-model-merger`.

Tensors are modelled as a shape, an element dtype and a flat list of exact
rational values (floating-point rounding is abstracted to exact arithmetic).
A loaded checkpoint (`state_dict`) is an association list from string keys
to tensors; the filesystem is a partial map from file names to parsed
state dicts.

`SDXLModelMerger.merge_models` (src/merge.py) and the Gradio merge of
`SDXLMergerInterface.merge_models` (src/app.py) are both embedded.
-/

/-- Element datatype of a torch tensor (the part relevant to the merger). -/
inductive DType
  | float16
  | float32
  | bfloat16
  | float64
deriving DecidableEq

/-- A tensor: shape, element dtype, and flat element data (exact rationals). -/
@[ext]
structure Tensor where
  shape : List ℕ
  dtype : DType
  data : List ℚ
deriving DecidableEq

/-- A checkpoint state dict: association list from parameter key to tensor. -/
abbrev StateDict := List (String × Tensor)

/-- `tensor.float()`: cast to 32-bit floating point (value-preserving here). -/
def tfloat (t : Tensor) : Tensor := { t with dtype := DType.float32 }

/-- `tensor * weight`: elementwise scalar multiplication. -/
def tmul (t : Tensor) (w : ℚ) : Tensor := { t with data := t.data.map fun x => x * w }

/-- `a += b`: elementwise addition (shapes equal at every use site). -/
def tadd (a b : Tensor) : Tensor :=
  { a with data := List.zipWith (fun x y => x + y) a.data b.data }

/-- `tensor / weight`: elementwise scalar division. -/
def tdiv (t : Tensor) (w : ℚ) : Tensor := { t with data := t.data.map fun x => x / w }

/-- The keys of a state dict (`state_dict.keys()`). -/
def listKeys (sd : StateDict) : List String := sd.map Prod.fst

/-- One loaded model of merge.py: model key, its state dict, its weight. -/
abbrev LoadedModels := List (String × StateDict × ℚ)

namespace SDXLModelMerger

/-- The tensors and weights collected for one key (merge.py lines 104-110):
the `(tensor, weight)` pairs of exactly the loaded models containing `key`,
in model order. -/
def contribsOf (loaded : LoadedModels) (key : String) : List (Tensor × ℚ) :=
  loaded.filterMap fun e => (e.2.1.lookup key).map fun t => (t, e.2.2)

/-- The body of the per-key loop of merge.py (lines 117-150): `none` means the
key is skipped (shape mismatch, or the unreachable empty-contributors
IndexError caught at line 148), `some t` means `t` is stored in the output. -/
def mergeOneKey (loaded : LoadedModels) (key : String) : Option Tensor :=
  match contribsOf loaded key with
  | [] => none
  | (t0, w0) :: rest =>
    if rest.any fun p => decide (p.1.shape ≠ t0.shape) then none
    else
      let merged := rest.foldl (fun acc p => tadd acc (tmul (tfloat p.1) p.2))
        (tmul (tfloat t0) w0)
      let total := (((t0, w0) :: rest).map Prod.snd).sum
      if 0 < total then some (tdiv merged total) else some merged

/-- Result of a merge: output mapping plus the report data merge.py tracks. -/
structure MergeResult where
  merged_state_dict : List (String × Tensor)
  skipped_keys : List String
  merged_count : ℕ
  weight_warning : Bool
deriving DecidableEq

/-- One iteration of the key loop acting on the accumulated
(output dict, skipped keys, merged count). -/
def mergeStep (loaded : LoadedModels)
    (acc : List (String × Tensor) × List String × ℕ) (key : String) :
    List (String × Tensor) × List String × ℕ :=
  match mergeOneKey loaded key with
  | some t => (acc.1 ++ [(key, t)], acc.2.1, acc.2.2 + 1)
  | none => (acc.1, acc.2.1 ++ [key], acc.2.2)

/-- `all_keys` (merge.py lines 88-90): the union of all models' key sets. -/
def allKeysOf (loaded : LoadedModels) : Finset String :=
  loaded.foldl (fun s e => s ∪ (listKeys e.2.1).toFinset) ∅

/-- `sorted(all_keys)` (merge.py line 98). -/
def sortedKeysOf (loaded : LoadedModels) : List String :=
  (allKeysOf loaded).sort (· ≤ ·)

/-- The pure merging phase of merge.py `merge_models` (lines 87-154), after all
models are loaded: fold the per-key loop over the sorted union of keys. The
weight warning is the line-75 check `abs(total_weight - 1.0) > 0.01`. -/
def mergeLoaded (loaded : LoadedModels) : MergeResult :=
  let r := (sortedKeysOf loaded).foldl (mergeStep loaded) ([], [], 0)
  { merged_state_dict := r.1
    skipped_keys := r.2.1
    merged_count := r.2.2
    weight_warning := decide ((1 : ℚ)/100 < |(loaded.map fun e => e.2.2).sum - 1|) }

/-- Fatal errors of merge.py (`load_model` raises FileNotFoundError). -/
inductive MergeError
  | modelNotFound (path : String)
deriving DecidableEq

/-- The loading loop of merge.py `merge_models` (lines 78-85): load each model
in order; a missing file aborts the whole merge (`load_model`, lines 39-42). -/
def loadAll (fs : String → Option StateDict) :
    List (String × String × ℚ) → Except MergeError LoadedModels
  | [] => Except.ok []
  | (k, file, w) :: rest =>
    match fs file with
    | none => Except.error (MergeError.modelNotFound file)
    | some sd => (loadAll fs rest).map fun l => (k, sd, w) :: l

/-- merge.py `merge_models`: load all inputs, then merge; `Except.ok r` means
the merged mapping of `r` was written to storage, `Except.error` means the
operation aborted with nothing written. -/
def merge_models (fs : String → Option StateDict)
    (models : List (String × String × ℚ)) : Except MergeError MergeResult :=
  (loadAll fs models).map mergeLoaded

end SDXLModelMerger

namespace SDXLMergerInterface

/-- The merging core of app.py `merge_models` (lines 33-84): normalizes the two
weights, returns `none` when both are zero (the line-36 error return, nothing
written), otherwise folds over the sorted union of the two key sets; on a
shape mismatch it falls back to model 1's tensor (line 80). -/
def merge_models (model1 model2 : StateDict) (mw1 mw2 : ℚ) : Option StateDict :=
  if mw1 + mw2 = 0 then none
  else
    let w1 := mw1 / (mw1 + mw2)
    let w2 := mw2 / (mw1 + mw2)
    let allKeys := (listKeys model1).toFinset ∪ (listKeys model2).toFinset
    some ((allKeys.sort (· ≤ ·)).foldl (fun merged key =>
      match model1.lookup key, model2.lookup key with
      | some t1, some t2 =>
        if t1.shape = t2.shape then
          merged ++ [(key, tadd (tmul (tfloat t1) w1) (tmul (tfloat t2) w2))]
        else
          merged ++ [(key, t1)]
      | some t1, none => merged ++ [(key, t1)]
      | none, some t2 => merged ++ [(key, t2)]
      | none, none => merged) [])

end SDXLMergerInterface

/-! ### Elementwise facts about the tensor operations -/

theorem tadd_shape (a b : Tensor) : (tadd a b).shape = a.shape := rfl

theorem tadd_dtype (a b : Tensor) : (tadd a b).dtype = a.dtype := rfl

theorem tmul_dtype (t : Tensor) (w : ℚ) : (tmul t w).dtype = t.dtype := rfl

theorem tdiv_dtype (t : Tensor) (w : ℚ) : (tdiv t w).dtype = t.dtype := rfl

theorem getD_map_mul (l : List ℚ) (w : ℚ) (j : ℕ) (h : j < l.length) :
    (l.map fun x => x * w).getD j 0 = l.getD j 0 * w := by
  induction l generalizing j with
  | nil => simp at h
  | cons x xs ih =>
    cases j with
    | zero => simp [List.getD]
    | succ n =>
      simp only [List.map_cons, List.getD_cons_succ]
      exact ih n (by simpa using h)

theorem getD_map_div (l : List ℚ) (w : ℚ) (j : ℕ) (h : j < l.length) :
    (l.map fun x => x / w).getD j 0 = l.getD j 0 / w := by
  induction l generalizing j with
  | nil => simp at h
  | cons x xs ih =>
    cases j with
    | zero => simp [List.getD]
    | succ n =>
      simp only [List.map_cons, List.getD_cons_succ]
      exact ih n (by simpa using h)

theorem getD_zipWith_add (a b : List ℚ) (j : ℕ) (ha : j < a.length) (hb : j < b.length) :
    (List.zipWith (fun x y => x + y) a b).getD j 0 = a.getD j 0 + b.getD j 0 := by
  induction a generalizing b j with
  | nil => simp at ha
  | cons x xs ih =>
    cases b with
    | nil => simp at hb
    | cons y ys =>
      cases j with
      | zero => simp [List.getD]
      | succ n =>
        simp only [List.zipWith_cons_cons, List.getD_cons_succ]
        exact ih ys n (by simpa using ha) (by simpa using hb)

/-! ### Association-list lookup facts -/

theorem lookup_isSome_iff (sd : StateDict) (k : String) :
    (sd.lookup k).isSome ↔ k ∈ listKeys sd := by
  induction sd with
  | nil => simp [listKeys, List.lookup]
  | cons p rest ih =>
    by_cases h : k = p.1
    · subst h
      simp [listKeys, List.lookup]
    · simp only [listKeys, List.map_cons, List.mem_cons]
      rw [show List.lookup k (p :: rest) = rest.lookup k from by
        simp [List.lookup, beq_eq_false_iff_ne.mpr h]]
      simp [listKeys] at ih
      simp [ih, h]

theorem lookup_mem {sd : StateDict} {k : String} {t : Tensor}
    (h : sd.lookup k = some t) : (k, t) ∈ sd := by
  induction sd with
  | nil => simp [List.lookup] at h
  | cons p rest ih =>
    by_cases hk : k = p.1
    · subst hk
      simp [List.lookup] at h
      cases p with
      | mk a b =>
        simp only at h
        simp [h]
    · rw [show List.lookup k (p :: rest) = rest.lookup k from by
        simp [List.lookup, beq_eq_false_iff_ne.mpr hk]] at h
      exact List.mem_cons_of_mem _ (ih h)

/-! ### The union of the key sets and the sorted key list -/

namespace SDXLModelMerger

theorem mem_foldl_union (loaded : LoadedModels) (s : Finset String) (k : String) :
    (k ∈ loaded.foldl (fun s e => s ∪ (listKeys e.2.1).toFinset) s) ↔
      k ∈ s ∨ ∃ e ∈ loaded, k ∈ listKeys e.2.1 := by
  induction loaded generalizing s with
  | nil => simp
  | cons e rest ih =>
    simp only [List.foldl_cons, ih, Finset.mem_union, List.mem_toFinset, List.mem_cons]
    constructor
    · rintro (⟨h | h⟩ | ⟨f, hf, hk⟩)
      · exact Or.inl h
      · exact Or.inr ⟨e, Or.inl rfl, h⟩
      · exact Or.inr ⟨f, Or.inr hf, hk⟩
    · rintro (h | ⟨f, (rfl | hf), hk⟩)
      · exact Or.inl (Or.inl h)
      · exact Or.inl (Or.inr hk)
      · exact Or.inr ⟨f, hf, hk⟩

theorem mem_allKeysOf (loaded : LoadedModels) (k : String) :
    k ∈ allKeysOf loaded ↔ ∃ e ∈ loaded, k ∈ listKeys e.2.1 := by
  rw [allKeysOf, mem_foldl_union]
  exact or_iff_right (Finset.not_mem_empty k)

theorem mem_sortedKeysOf (loaded : LoadedModels) (k : String) :
    k ∈ sortedKeysOf loaded ↔ ∃ e ∈ loaded, k ∈ listKeys e.2.1 := by
  rw [sortedKeysOf, Finset.mem_sort, mem_allKeysOf]

theorem sortedKeysOf_nodup (loaded : LoadedModels) : (sortedKeysOf loaded).Nodup :=
  Finset.sort_nodup _ _

theorem sortedKeysOf_sorted (loaded : LoadedModels) :
    List.Sorted (· ≤ ·) (sortedKeysOf loaded) :=
  Finset.sort_sorted _ _

theorem mem_contribsOf {loaded : LoadedModels} {key : String} {p : Tensor × ℚ}
    (h : p ∈ contribsOf loaded key) :
    ∃ e ∈ loaded, e.2.1.lookup key = some p.1 ∧ e.2.2 = p.2 := by
  rw [contribsOf, List.mem_filterMap] at h
  obtain ⟨e, he, hf⟩ := h
  cases hl : e.2.1.lookup key with
  | none => rw [hl] at hf; simp at hf
  | some t =>
    rw [hl] at hf
    have hpt : (t, e.2.2) = p := by simpa using hf
    exact ⟨e, he, by rw [hl, ← hpt], by rw [← hpt]⟩

theorem contribsOf_mem_sortedKeys {loaded : LoadedModels} {key : String}
    (h : contribsOf loaded key ≠ []) : key ∈ sortedKeysOf loaded := by
  rw [mem_sortedKeysOf]
  obtain ⟨p, hp⟩ := List.exists_mem_of_ne_nil _ h
  obtain ⟨e, he, hl, _⟩ := mem_contribsOf hp
  exact ⟨e, he, (lookup_isSome_iff _ _).mp (by rw [hl]; rfl)⟩

/-! ### Characterization of the key-loop fold -/

theorem mergeFold_spec (loaded : LoadedModels) (ks : List String)
    (d0 : List (String × Tensor)) (s0 : List String) (n0 : ℕ) :
    ks.foldl (mergeStep loaded) (d0, s0, n0) =
      (d0 ++ ks.filterMap fun k => (mergeOneKey loaded k).map fun t => (k, t),
       s0 ++ ks.filter fun k => (mergeOneKey loaded k).isNone,
       n0 + ks.countP fun k => (mergeOneKey loaded k).isSome) := by
  induction ks generalizing d0 s0 n0 with
  | nil => simp
  | cons k rest ih =>
    simp only [List.foldl_cons]
    cases h : mergeOneKey loaded k with
    | some t =>
      rw [show mergeStep loaded (d0, s0, n0) k = (d0 ++ [(k, t)], s0, n0 + 1) from by
        simp [mergeStep, h]]
      rw [ih]
      simp [List.filterMap_cons, List.filter_cons, List.countP_cons, h, Nat.add_comm,
        Nat.add_assoc]
    | none =>
      rw [show mergeStep loaded (d0, s0, n0) k = (d0, s0 ++ [k], n0) from by
        simp [mergeStep, h]]
      rw [ih]
      simp [List.filterMap_cons, List.filter_cons, List.countP_cons, h]

theorem lookup_cons_self {l : List (String × Tensor)} (key : String) (t : Tensor) :
    List.lookup key ((key, t) :: l) = some t := by
  simp [List.lookup]

theorem lookup_cons_of_ne {l : List (String × Tensor)} {key k : String} (t : Tensor)
    (h : key ≠ k) : List.lookup key ((k, t) :: l) = l.lookup key := by
  simp [List.lookup, beq_eq_false_iff_ne.mpr h]

theorem lookup_keyedFilterMap_of_not_mem {ks : List String} {key : String}
    (g : String → Option Tensor) (hmem : key ∉ ks) :
    (ks.filterMap fun k => (g k).map fun t => (k, t)).lookup key = none := by
  induction ks with
  | nil => simp [List.lookup]
  | cons k rest ih =>
    have hne : key ≠ k := fun he => hmem (he ▸ List.mem_cons_self _ _)
    have hrest : key ∉ rest := fun hm => hmem (List.mem_cons_of_mem _ hm)
    cases h : g k with
    | some t =>
      rw [List.filterMap_cons_some (by rw [h]; rfl), lookup_cons_of_ne _ hne]
      exact ih hrest
    | none =>
      rw [List.filterMap_cons_none (by rw [h]; rfl)]
      exact ih hrest

theorem lookup_keyedFilterMap_of_mem {ks : List String} {key : String}
    (g : String → Option Tensor) (hnd : ks.Nodup) (hmem : key ∈ ks) :
    (ks.filterMap fun k => (g k).map fun t => (k, t)).lookup key = g key := by
  induction ks with
  | nil => simp at hmem
  | cons k rest ih =>
    rcases List.mem_cons.mp hmem with rfl | hmem2
    · have hnot : key ∉ rest := (List.nodup_cons.mp hnd).1
      cases h : g key with
      | some t =>
        rw [List.filterMap_cons_some (by rw [h]; rfl), lookup_cons_self]
      | none =>
        rw [List.filterMap_cons_none (by rw [h]; rfl)]
        exact lookup_keyedFilterMap_of_not_mem g hnot
    · have hne : key ≠ k := fun he => (List.nodup_cons.mp hnd).1 (he ▸ hmem2)
      cases h : g k with
      | some t =>
        rw [List.filterMap_cons_some (by rw [h]; rfl), lookup_cons_of_ne _ hne]
        exact ih (List.nodup_cons.mp hnd).2 hmem2
      | none =>
        rw [List.filterMap_cons_none (by rw [h]; rfl)]
        exact ih (List.nodup_cons.mp hnd).2 hmem2

theorem map_fst_keyedFilterMap (ks : List String) (g : String → Option Tensor) :
    (ks.filterMap fun k => (g k).map fun t => (k, t)).map Prod.fst =
      ks.filter fun k => (g k).isSome := by
  induction ks with
  | nil => simp
  | cons k rest ih =>
    cases h : g k with
    | some t => simp [List.filterMap_cons, List.filter_cons, h, ih]
    | none => simp [List.filterMap_cons, List.filter_cons, h, ih]

/-- The output mapping of `mergeLoaded`, at any key of the union, holds exactly
what the per-key loop body computes; keys outside the union are absent. -/
theorem mergeLoaded_lookup (loaded : LoadedModels) (key : String) :
    (mergeLoaded loaded).merged_state_dict.lookup key =
      if key ∈ sortedKeysOf loaded then mergeOneKey loaded key else none := by
  rw [mergeLoaded]
  simp only [mergeFold_spec, List.nil_append]
  by_cases h : key ∈ sortedKeysOf loaded
  · rw [if_pos h]
    exact lookup_keyedFilterMap_of_mem _ (sortedKeysOf_nodup loaded) h
  · rw [if_neg h]
    exact lookup_keyedFilterMap_of_not_mem _ h

theorem mergeLoaded_skipped (loaded : LoadedModels) :
    (mergeLoaded loaded).skipped_keys =
      (sortedKeysOf loaded).filter fun k => (mergeOneKey loaded k).isNone := by
  rw [mergeLoaded]
  simp [mergeFold_spec]

theorem mergeLoaded_count (loaded : LoadedModels) :
    (mergeLoaded loaded).merged_count =
      (sortedKeysOf loaded).countP fun k => (mergeOneKey loaded k).isSome := by
  rw [mergeLoaded]
  simp [mergeFold_spec]

theorem mergeLoaded_dict (loaded : LoadedModels) :
    (mergeLoaded loaded).merged_state_dict =
      (sortedKeysOf loaded).filterMap fun k => (mergeOneKey loaded k).map fun t => (k, t) := by
  rw [mergeLoaded]
  simp [mergeFold_spec]

end SDXLModelMerger

/-! ### The weighted-sum fold of the per-key loop -/

namespace SDXLModelMerger

theorem weightedFold_dtype (rest : List (Tensor × ℚ)) (init : Tensor) :
    (rest.foldl (fun acc p => tadd acc (tmul (tfloat p.1) p.2)) init).dtype =
      init.dtype := by
  induction rest generalizing init with
  | nil => rfl
  | cons p r ih => rw [List.foldl_cons, ih, tadd_dtype]

theorem weightedFold_shape (rest : List (Tensor × ℚ)) (init : Tensor) :
    (rest.foldl (fun acc p => tadd acc (tmul (tfloat p.1) p.2)) init).shape =
      init.shape := by
  induction rest generalizing init with
  | nil => rfl
  | cons p r ih => rw [List.foldl_cons, ih, tadd_shape]

theorem weightedFold_length (rest : List (Tensor × ℚ)) (init : Tensor)
    (h : ∀ p ∈ rest, p.1.data.length = init.data.length) :
    (rest.foldl (fun acc p => tadd acc (tmul (tfloat p.1) p.2)) init).data.length =
      init.data.length := by
  induction rest generalizing init with
  | nil => rfl
  | cons p r ih =>
    rw [List.foldl_cons]
    have hstep : (tadd init (tmul (tfloat p.1) p.2)).data.length = init.data.length := by
      simp only [tadd, tmul, tfloat, List.length_zipWith, List.length_map]
      exact Nat.min_eq_left (by rw [h p (List.mem_cons_self _ _)])
    rw [ih _ fun q hq => by rw [hstep]; exact h q (List.mem_cons_of_mem _ hq), hstep]

theorem weightedFold_getD (rest : List (Tensor × ℚ)) (init : Tensor) (j : ℕ)
    (hj : j < init.data.length)
    (h : ∀ p ∈ rest, p.1.data.length = init.data.length) :
    (rest.foldl (fun acc p => tadd acc (tmul (tfloat p.1) p.2)) init).data.getD j 0 =
      init.data.getD j 0 + (rest.map fun p => p.2 * p.1.data.getD j 0).sum := by
  induction rest generalizing init with
  | nil => simp
  | cons p r ih =>
    rw [List.foldl_cons]
    have hlen : p.1.data.length = init.data.length := h p (List.mem_cons_self _ _)
    have hstep : (tadd init (tmul (tfloat p.1) p.2)).data.length = init.data.length := by
      simp only [tadd, tmul, tfloat, List.length_zipWith, List.length_map]
      exact Nat.min_eq_left (by rw [hlen])
    have hstepD : (tadd init (tmul (tfloat p.1) p.2)).data.getD j 0 =
        init.data.getD j 0 + p.2 * p.1.data.getD j 0 := by
      simp only [tadd, tmul, tfloat]
      rw [getD_zipWith_add _ _ _ hj (by simp only [List.length_map]; rw [hlen]; exact hj),
        getD_map_mul _ _ _ (by rw [hlen]; exact hj), mul_comm]
    rw [ih _ (by rw [hstep]; exact hj)
      (fun q hq => by rw [hstep]; exact h q (List.mem_cons_of_mem _ hq)), hstepD]
    simp [add_assoc]

theorem countP_isSome_add_length_filter (ks : List String) (g : String → Option Tensor) :
    (ks.countP fun k => (g k).isSome) + (ks.filter fun k => (g k).isNone).length =
      ks.length := by
  induction ks with
  | nil => rfl
  | cons k rest ih =>
    cases h : g k with
    | some t =>
      simp [List.countP_cons, List.filter_cons, h]
      omega
    | none =>
      simp [List.countP_cons, List.filter_cons, h]
      omega

end SDXLModelMerger

/-! ### Facts about the per-key merge result -/

namespace SDXLModelMerger

theorem tfloat_dtype (t : Tensor) : (tfloat t).dtype = DType.float32 := rfl

theorem mergeOneKey_dtype {loaded : LoadedModels} {key : String} {t : Tensor}
    (h : mergeOneKey loaded key = some t) : t.dtype = DType.float32 := by
  rw [mergeOneKey] at h
  cases hc : contribsOf loaded key with
  | nil => rw [hc] at h; exact absurd h (by simp)
  | cons p rest =>
    obtain ⟨t0, w0⟩ := p
    rw [hc] at h
    simp only at h
    by_cases hs : (rest.any fun p => decide (p.1.shape ≠ t0.shape)) = true
    · rw [if_pos hs] at h; exact absurd h (by simp)
    · rw [if_neg hs] at h
      by_cases ht : 0 < (((t0, w0) :: rest).map Prod.snd).sum
      · rw [if_pos ht] at h
        rw [← Option.some.inj h, tdiv_dtype, weightedFold_dtype, tmul_dtype, tfloat_dtype]
      · rw [if_neg ht] at h
        rw [← Option.some.inj h, weightedFold_dtype, tmul_dtype, tfloat_dtype]

theorem every_union_key_accounted (loaded : LoadedModels) (k : String)
    (hk : k ∈ allKeysOf loaded) :
    ((mergeLoaded loaded).merged_state_dict.lookup k).isSome = true ∨
      k ∈ (mergeLoaded loaded).skipped_keys := by
  have hks : k ∈ sortedKeysOf loaded := by rw [sortedKeysOf, Finset.mem_sort]; exact hk
  rw [mergeLoaded_lookup, if_pos hks, mergeLoaded_skipped]
  cases h : mergeOneKey loaded k with
  | some t => exact Or.inl rfl
  | none => exact Or.inr (List.mem_filter.mpr ⟨hks, by rw [h]; rfl⟩)

end SDXLModelMerger

/-! ### Claim C5 -/

open SDXLModelMerger in
/-- C5: for every completed merge of merge.py, `merged_count + skipped_count`
equals the number of keys in the union of all input key sets; every union key
is either present in the output mapping or recorded among the skipped keys. -/
theorem union_count_invariant (loaded : LoadedModels) :
    (mergeLoaded loaded).merged_count + (mergeLoaded loaded).skipped_keys.length =
        (allKeysOf loaded).card ∧
      ∀ k ∈ allKeysOf loaded,
        ((mergeLoaded loaded).merged_state_dict.lookup k).isSome = true ∨
          k ∈ (mergeLoaded loaded).skipped_keys := by
  constructor
  · rw [mergeLoaded_count, mergeLoaded_skipped, countP_isSome_add_length_filter,
      sortedKeysOf, Finset.length_sort]
  · exact every_union_key_accounted loaded

/-! ### Claim C10 -/

open SDXLModelMerger in
/-- C10: every tensor stored in the merged output mapping of merge.py has
32-bit floating-point dtype, whatever the dtypes of the inputs were. -/
theorem output_dtype_float32 (loaded : LoadedModels) (key : String) (t : Tensor)
    (h : (mergeLoaded loaded).merged_state_dict.lookup key = some t) :
    t.dtype = DType.float32 := by
  rw [mergeLoaded_lookup] at h
  by_cases hk : key ∈ sortedKeysOf loaded
  · rw [if_pos hk] at h
    exact mergeOneKey_dtype h
  · rw [if_neg hk] at h
    exact absurd h (by simp)

/-! ### Claim C4 -/

open SDXLModelMerger in
/-- C4: a key held by two or more inputs whose contributing tensors do not all
share one shape is excluded from the output, recorded in `skipped_keys`, and
the merge is not aborted: every other union key is still merged or skipped. -/
theorem shape_mismatch_skip (loaded : LoadedModels) (key : String)
    (h2 : 2 ≤ (contribsOf loaded key).length)
    (hmm : ∃ p ∈ contribsOf loaded key, ∃ q ∈ contribsOf loaded key,
      p.1.shape ≠ q.1.shape) :
    (mergeLoaded loaded).merged_state_dict.lookup key = none ∧
      key ∈ (mergeLoaded loaded).skipped_keys ∧
      ∀ k ∈ allKeysOf loaded,
        ((mergeLoaded loaded).merged_state_dict.lookup k).isSome = true ∨
          k ∈ (mergeLoaded loaded).skipped_keys := by
  have hcne : contribsOf loaded key ≠ [] := by
    intro h
    rw [h] at h2
    simp at h2
  have hnone : mergeOneKey loaded key = none := by
    rw [mergeOneKey]
    cases hc : contribsOf loaded key with
    | nil => rfl
    | cons p rest =>
      obtain ⟨t0, w0⟩ := p
      simp only
      rw [if_pos]
      rw [List.any_eq_true]
      by_contra hall
      push_neg at hall
      have hsh : ∀ r ∈ contribsOf loaded key, r.1.shape = t0.shape := by
        intro r hr
        rw [hc] at hr
        rcases List.mem_cons.mp hr with rfl | hr2
        · rfl
        · have := hall r hr2
          simpa using this
      obtain ⟨p, hp, q, hq, hne⟩ := hmm
      exact hne ((hsh p hp).trans (hsh q hq).symm)
  have hks : key ∈ sortedKeysOf loaded := contribsOf_mem_sortedKeys hcne
  refine ⟨?_, ?_, fun k hk => every_union_key_accounted loaded k hk⟩
  · rw [mergeLoaded_lookup, if_pos hks, hnone]
  · rw [mergeLoaded_skipped]
    exact List.mem_filter.mpr ⟨hks, by rw [hnone]; rfl⟩

open SDXLModelMerger in
/-- Witness for C4 at a concrete merge: two models both hold `"k"` with shapes
`[2]` and `[3]`; the key is skipped, recorded, and the merge completes. -/
theorem shape_mismatch_skip_witness :
    (mergeLoaded [("model1", [("k", ⟨[2], DType.float32, [1, 1]⟩)], 1/2),
        ("model2", [("k", ⟨[3], DType.float32, [2, 2, 2]⟩)], 1/2)]).merged_state_dict.lookup
        "k" = none ∧
      "k" ∈ (mergeLoaded [("model1", [("k", ⟨[2], DType.float32, [1, 1]⟩)], 1/2),
        ("model2", [("k", ⟨[3], DType.float32, [2, 2, 2]⟩)], 1/2)]).skipped_keys ∧
      ∀ k ∈ allKeysOf [("model1", [("k", ⟨[2], DType.float32, [1, 1]⟩)], 1/2),
          ("model2", [("k", ⟨[3], DType.float32, [2, 2, 2]⟩)], 1/2)],
        ((mergeLoaded [("model1", [("k", ⟨[2], DType.float32, [1, 1]⟩)], 1/2),
          ("model2", [("k", ⟨[3], DType.float32, [2, 2, 2]⟩)],
            1/2)]).merged_state_dict.lookup k).isSome = true ∨
          k ∈ (mergeLoaded [("model1", [("k", ⟨[2], DType.float32, [1, 1]⟩)], 1/2),
            ("model2", [("k", ⟨[3], DType.float32, [2, 2, 2]⟩)], 1/2)]).skipped_keys :=
  shape_mismatch_skip _ "k" (by decide) (by decide)

/-! ### Claim C1 -/

namespace SDXLModelMerger

theorem tmul_shape (t : Tensor) (w : ℚ) : (tmul t w).shape = t.shape := rfl

theorem tdiv_shape (t : Tensor) (w : ℚ) : (tdiv t w).shape = t.shape := rfl

theorem tfloat_shape (t : Tensor) : (tfloat t).shape = t.shape := rfl

theorem tmul_length (t : Tensor) (w : ℚ) : (tmul t w).data.length = t.data.length := by
  simp [tmul]

theorem tdiv_length (t : Tensor) (w : ℚ) : (tdiv t w).data.length = t.data.length := by
  simp [tdiv]

theorem tfloat_data (t : Tensor) : (tfloat t).data = t.data := rfl

end SDXLModelMerger

open SDXLModelMerger in
/-- C1: for a merge whose inputs all have positive weights and a key present in
every input with one common shape (and well-formed common data length), the
output tensor at that key is the elementwise weighted sum of the contributing
tensors divided by the sum of their weights (exact rational arithmetic stands
in for "within floating-point tolerance"). -/
theorem weighted_average_of_common_key (loaded : LoadedModels) (key : String)
    (s0 : List ℕ) (L : ℕ)
    (hne : loaded ≠ [])
    (hw : ∀ e ∈ loaded, 0 < e.2.2)
    (hall : (contribsOf loaded key).length = loaded.length)
    (hsh : ∀ p ∈ contribsOf loaded key, p.1.shape = s0 ∧ p.1.data.length = L) :
    ∃ T, (mergeLoaded loaded).merged_state_dict.lookup key = some T ∧
      T.shape = s0 ∧ T.dtype = DType.float32 ∧ T.data.length = L ∧
      ∀ j, j < L → T.data.getD j 0 =
        ((contribsOf loaded key).map fun p => p.2 * p.1.data.getD j 0).sum /
          ((contribsOf loaded key).map Prod.snd).sum := by
  have hwc : ∀ p ∈ contribsOf loaded key, 0 < p.2 := by
    intro p hp
    obtain ⟨e, he, _, hwgt⟩ := mem_contribsOf hp
    rw [← hwgt]
    exact hw e he
  have hcne : contribsOf loaded key ≠ [] := by
    intro h
    apply hne
    rw [h] at hall
    exact List.length_eq_zero.mp hall.symm
  cases hc : contribsOf loaded key with
  | nil => exact absurd hc hcne
  | cons p rest =>
    obtain ⟨t0, w0⟩ := p
    have hmem0 : (t0, w0) ∈ contribsOf loaded key := by
      rw [hc]; exact List.mem_cons_self _ _
    have hmemr : ∀ q ∈ rest, q ∈ contribsOf loaded key := by
      intro q hq; rw [hc]; exact List.mem_cons_of_mem _ hq
    have hsh0 : t0.shape = s0 := (hsh _ hmem0).1
    have hlen0 : t0.data.length = L := (hsh _ hmem0).2
    have hrest_sh : ∀ q ∈ rest, q.1.shape = t0.shape := fun q hq =>
      ((hsh q (hmemr q hq)).1).trans hsh0.symm
    have hw0 : 0 < w0 := hwc _ hmem0
    have hrwnn : 0 ≤ (rest.map Prod.snd).sum := by
      apply List.sum_nonneg
      intro x hx
      obtain ⟨q, hq, rfl⟩ := List.mem_map.mp hx
      exact le_of_lt (hwc q (hmemr q hq))
    have htot : 0 < (((t0, w0) :: rest).map Prod.snd).sum := by
      rw [List.map_cons, List.sum_cons]
      exact add_pos_of_pos_of_nonneg hw0 hrwnn
    have hanyf : (rest.any fun p => decide (p.1.shape ≠ t0.shape)) = false := by
      cases h : rest.any fun p => decide (p.1.shape ≠ t0.shape) with
      | false => rfl
      | true =>
        obtain ⟨q, hq, hd⟩ := List.any_eq_true.mp h
        rw [decide_eq_true_eq] at hd
        exact absurd (hrest_sh q hq) hd
    have hm : mergeOneKey loaded key =
        some (tdiv (rest.foldl (fun acc p => tadd acc (tmul (tfloat p.1) p.2))
          (tmul (tfloat t0) w0)) ((((t0, w0) :: rest).map Prod.snd).sum)) := by
      rw [mergeOneKey, hc]
      simp only
      rw [if_neg (by rw [hanyf]; exact Bool.false_ne_true), if_pos htot]
    have hinitlen : (tmul (tfloat t0) w0).data.length = L := by
      rw [tmul_length, tfloat_data, hlen0]
    have hrlen : ∀ q ∈ rest, q.1.data.length = (tmul (tfloat t0) w0).data.length := by
      intro q hq
      rw [hinitlen]
      exact (hsh q (hmemr q hq)).2
    have hfoldlen :
        (rest.foldl (fun acc p => tadd acc (tmul (tfloat p.1) p.2))
          (tmul (tfloat t0) w0)).data.length = L := by
      rw [weightedFold_length rest _ hrlen, hinitlen]
    refine ⟨_, by rw [mergeLoaded_lookup, if_pos (contribsOf_mem_sortedKeys hcne), hm],
      ?_, ?_, ?_, ?_⟩
    · rw [tdiv_shape, weightedFold_shape, tmul_shape, tfloat_shape, hsh0]
    · rw [tdiv_dtype, weightedFold_dtype, tmul_dtype, tfloat_dtype]
    · rw [tdiv_length, hfoldlen]
    · intro j hj
      have hjfold : j <
          (rest.foldl (fun acc p => tadd acc (tmul (tfloat p.1) p.2))
            (tmul (tfloat t0) w0)).data.length := by rw [hfoldlen]; exact hj
      have hjinit : j < (tmul (tfloat t0) w0).data.length := by rw [hinitlen]; exact hj
      have hdiv : (tdiv (rest.foldl (fun acc p => tadd acc (tmul (tfloat p.1) p.2))
          (tmul (tfloat t0) w0)) ((((t0, w0) :: rest).map Prod.snd).sum)).data.getD j 0 =
          (rest.foldl (fun acc p => tadd acc (tmul (tfloat p.1) p.2))
            (tmul (tfloat t0) w0)).data.getD j 0 /
            ((((t0, w0) :: rest).map Prod.snd).sum) := by
        simp only [tdiv]
        exact getD_map_div _ _ _ hjfold
      have hinitD : (tmul (tfloat t0) w0).data.getD j 0 = t0.data.getD j 0 * w0 := by
        simp only [tmul, tfloat_data]
        exact getD_map_mul _ _ _ (by rw [hlen0]; exact hj)
      rw [hdiv, weightedFold_getD rest _ j hjinit hrlen, hinitD, List.map_cons,
        List.sum_cons]
      simp [mul_comm]

open SDXLModelMerger in
/-- Witness for C1 at the spec's own scenario: tensors `[1,1]` and `[3,3]` with
weights `0.6` and `0.4` merge to `[1.8, 1.8]`. -/
theorem weighted_average_of_common_key_witness :
    ∃ T, (mergeLoaded [("jake", [("w1", ⟨[2], DType.float32, [1, 1]⟩)], 6/10),
        ("realvis", [("w1", ⟨[2], DType.float32, [3, 3]⟩)],
          4/10)]).merged_state_dict.lookup "w1" = some T ∧
      T.shape = [2] ∧ T.dtype = DType.float32 ∧ T.data.length = 2 ∧
      ∀ j, j < 2 → T.data.getD j 0 =
        ((contribsOf [("jake", [("w1", ⟨[2], DType.float32, [1, 1]⟩)], 6/10),
            ("realvis", [("w1", ⟨[2], DType.float32, [3, 3]⟩)], 4/10)] "w1").map
          fun p => p.2 * p.1.data.getD j 0).sum /
          ((contribsOf [("jake", [("w1", ⟨[2], DType.float32, [1, 1]⟩)], 6/10),
            ("realvis", [("w1", ⟨[2], DType.float32, [3, 3]⟩)], 4/10)] "w1").map
            Prod.snd).sum :=
  weighted_average_of_common_key _ "w1" [2] 2 (by decide)
    (by
      intro e he
      simp only [List.mem_cons, List.not_mem_nil, or_false] at he
      rcases he with rfl | rfl <;> norm_num)
    (by decide)
    (by
      intro p hp
      have hp2 : p ∈ [((⟨[2], DType.float32, [1, 1]⟩ : Tensor), (6 : ℚ)/10),
          ((⟨[2], DType.float32, [3, 3]⟩ : Tensor), (4 : ℚ)/10)] := hp
      simp only [List.mem_cons, List.not_mem_nil, or_false] at hp2
      rcases hp2 with rfl | rfl <;> exact ⟨rfl, rfl⟩)

/-! ### Claim C2 -/

open SDXLModelMerger in
/-- C2 (counterexample): with two inputs and key `"k"` contained only in the
first input, whose weight is the permitted value `0`, merge.py stores the zero
tensor instead of the input's tensor `[5]`: the claimed pass-through fails. -/
theorem single_source_passthrough_cex :
    (mergeLoaded [("a", [("k", ⟨[1], DType.float32, [5]⟩)], 0),
        ("b", [], 1)]).merged_state_dict.lookup "k" =
      some ⟨[1], DType.float32, [0]⟩ ∧
    (⟨[1], DType.float32, [0]⟩ : Tensor) ≠ ⟨[1], DType.float32, [5]⟩ := by
  constructor
  · have hk : sortedKeysOf [("a", [("k", ⟨[1], DType.float32, [5]⟩)], 0), ("b", [], 1)] =
        ["k"] := by
      rw [sortedKeysOf, show allKeysOf [("a", [("k", ⟨[1], DType.float32, [5]⟩)], 0),
        ("b", [], 1)] = {"k"} from by decide, Finset.sort_singleton]
    rw [mergeLoaded]
    simp only [hk, List.foldl_cons, List.foldl_nil]
    norm_num [mergeStep, mergeOneKey, contribsOf, List.lookup, List.filterMap, tmul,
      tfloat, List.lookup_nil]
  · decide

open SDXLModelMerger in
/-- C2 (amended): with at least two inputs and key contained in exactly one of
them with tensor `t` and weight `w ≥ 0`, the output at that key is `t` cast to
float32 when `w > 0` (values unchanged), and the zero tensor when `w = 0`. -/
theorem single_source_passthrough (loaded : LoadedModels) (key : String)
    (t : Tensor) (w : ℚ)
    (_hn : 2 ≤ loaded.length)
    (hone : contribsOf loaded key = [(t, w)])
    (hw : 0 ≤ w) :
    (mergeLoaded loaded).merged_state_dict.lookup key =
      some (if 0 < w then tfloat t
        else ⟨t.shape, DType.float32, t.data.map fun _ => 0⟩) := by
  have hcne : contribsOf loaded key ≠ [] := by rw [hone]; exact List.cons_ne_nil _ _
  have hks : key ∈ sortedKeysOf loaded := contribsOf_mem_sortedKeys hcne
  rw [mergeLoaded_lookup, if_pos hks, mergeOneKey, hone]
  simp only [List.any_nil, Bool.false_eq_true, if_false, List.foldl_nil, List.map_cons,
    List.map_nil, List.sum_cons, List.sum_nil, add_zero]
  rcases lt_or_eq_of_le hw with hpos | hzero
  · rw [if_pos hpos, if_pos hpos]
    congr 1
    ext1
    · rw [tdiv_shape, tmul_shape, tfloat_shape]
    · rw [tdiv_dtype, tmul_dtype, tfloat_dtype]
    · show ((t.data.map fun x => x * w).map fun x => x / w) = t.data
      rw [List.map_map]
      have : ∀ x ∈ t.data, ((fun x => x / w) ∘ fun x => x * w) x = x := fun x _ =>
        mul_div_cancel_right₀ x (ne_of_gt hpos)
      rw [List.map_congr_left this]
      exact List.map_id _
  · rw [if_neg (by rw [← hzero]; exact lt_irrefl 0), if_neg (by rw [← hzero]; exact lt_irrefl 0)]
    congr 1
    ext1
    · rw [tmul_shape, tfloat_shape]
    · rw [tmul_dtype, tfloat_dtype]
    · show (t.data.map fun x => x * w) = t.data.map fun _ => 0
      rw [← hzero]
      simp [mul_zero]

open SDXLModelMerger in
/-- Witness for the amended C2 at a concrete merge: key `"k"` lives only in the
first of two inputs; with weight `1/2` it is passed through as float32. -/
theorem single_source_passthrough_witness :
    (mergeLoaded [("a", [("k", ⟨[1], DType.float32, [5]⟩)], 1),
        ("b", [], 1)]).merged_state_dict.lookup "k" =
      some (if (0 : ℚ) < 1 then tfloat ⟨[1], DType.float32, [5]⟩
        else ⟨[1], DType.float32, [(5 : ℚ)].map fun _ => 0⟩) :=
  single_source_passthrough _ "k" ⟨[1], DType.float32, [5]⟩ 1 (by decide)
    (by decide) (by norm_num)

/-! ### Claim C3 -/

open SDXLModelMerger in
/-- C3 (counterexample): merge.py does not validate its configuration. With an
empty inputs dict it succeeds and writes an empty output artifact, and with a
single all-zero-weight input it succeeds and writes a zero tensor — in both
cases no `InvalidConfiguration`-style failure occurs. -/
theorem invalid_config_cex :
    merge_models (fun _ => none) [] = Except.ok ⟨[], [], 0, true⟩ ∧
    merge_models (fun _ => some [("k", ⟨[1], DType.float32, [3]⟩)])
        [("m", "f.safetensors", 0)] =
      Except.ok ⟨[("k", ⟨[1], DType.float32, [0]⟩)], [], 1, true⟩ := by
  constructor
  · rw [merge_models]
    show Except.ok (mergeLoaded []) = _
    rw [mergeLoaded]
    simp only [sortedKeysOf, show allKeysOf [] = ∅ from rfl, Finset.sort_empty,
      List.foldl_nil, List.map_nil, List.sum_nil]
    norm_num
  · rw [merge_models]
    show Except.ok (mergeLoaded [("m", [("k", ⟨[1], DType.float32, [3]⟩)], 0)]) = _
    have hk : sortedKeysOf [("m", [("k", ⟨[1], DType.float32, [3]⟩)], 0)] = ["k"] := by
      rw [sortedKeysOf, show allKeysOf [("m", [("k", ⟨[1], DType.float32, [3]⟩)], 0)] =
        {"k"} from by decide, Finset.sort_singleton]
    rw [mergeLoaded]
    simp only [hk, List.foldl_cons, List.foldl_nil]
    norm_num [mergeStep, mergeOneKey, contribsOf, List.lookup, List.filterMap, tmul, tfloat]

open SDXLModelMerger in
/-- C3 (amended): only the Gradio front-end (app.py) rejects an all-zero weight
configuration (returning an error with nothing written); merge.py itself
performs no such validation — whenever its inputs load, the merge succeeds and
an output is written, for any weights including all-zero and an empty list. -/
theorem invalid_config_amended :
    (∀ (m1 m2 : StateDict) (w1 w2 : ℚ), w1 + w2 = 0 →
      SDXLMergerInterface.merge_models m1 m2 w1 w2 = none) ∧
    ∀ (fs : String → Option StateDict) (models : List (String × String × ℚ))
      (loaded : LoadedModels), loadAll fs models = Except.ok loaded →
      merge_models fs models = Except.ok (mergeLoaded loaded) := by
  constructor
  · intro m1 m2 w1 w2 h
    rw [SDXLMergerInterface.merge_models, if_pos h]
  · intro fs models loaded h
    rw [merge_models, h]
    rfl

open SDXLModelMerger in
/-- Witness for the amended C3: both-zero weights make app.py bail out, while
merge.py on an empty configuration still returns a written (empty) result. -/
theorem invalid_config_witness :
    SDXLMergerInterface.merge_models [] [] 0 0 = none ∧
    merge_models (fun _ => none) [] = Except.ok (mergeLoaded []) :=
  ⟨invalid_config_amended.1 [] [] 0 0 (by norm_num),
   invalid_config_amended.2 (fun _ => none) [] [] rfl⟩

/-! ### Claim C9 -/

namespace SDXLModelMerger

theorem loadAll_missing (fs : String → Option StateDict)
    (models : List (String × String × ℚ)) (h : ∃ e ∈ models, fs e.2.1 = none) :
    ∃ f, loadAll fs models = Except.error (MergeError.modelNotFound f) ∧
      fs f = none := by
  induction models with
  | nil => simp at h
  | cons m rest ih =>
    obtain ⟨k, file, w⟩ := m
    cases hf : fs file with
    | none => exact ⟨file, by simp only [loadAll, hf], hf⟩
    | some sd =>
      obtain ⟨e, he, hnone⟩ := h
      rcases List.mem_cons.mp he with rfl | he2
      · have hcontra : fs file = none := hnone
        rw [hf] at hcontra
        exact absurd hcontra (by simp)
      · obtain ⟨f, hl, hn⟩ := ih ⟨e, he2, hnone⟩
        refine ⟨f, ?_, hn⟩
        simp only [loadAll, hf, hl]
        rfl

end SDXLModelMerger

open SDXLModelMerger in
/-- C9: if some referenced input file is missing, merge.py fails with a
model-not-found error (the `FileNotFoundError` of `load_model`, raised in the
loading phase before the per-key loop) and no output is written. -/
theorem missing_model_fail_fast (fs : String → Option StateDict)
    (models : List (String × String × ℚ)) (h : ∃ e ∈ models, fs e.2.1 = none) :
    ∃ f, merge_models fs models = Except.error (MergeError.modelNotFound f) ∧
      fs f = none := by
  obtain ⟨f, hl, hn⟩ := loadAll_missing fs models h
  refine ⟨f, ?_, hn⟩
  rw [merge_models, hl]
  rfl

open SDXLModelMerger in
/-- Witness for C9: a configuration naming one file on an empty filesystem
fails with a model-not-found error. -/
theorem missing_model_fail_fast_witness :
    ∃ f, merge_models (fun _ => none) [("m", "missing.safetensors", 1)] =
      Except.error (MergeError.modelNotFound f) ∧
      (fun _ : String => (none : Option StateDict)) f = none :=
  missing_model_fail_fast _ _ ⟨("m", "missing.safetensors", 1),
    List.mem_cons_self _ _, rfl⟩

/-! ### Claim C6 -/

open SDXLModelMerger in
/-- C6: the two merge implementations disagree on a key present in several
inputs with mismatched shapes: merge.py skips `"k"` (absent from the output,
recorded as skipped) while app.py silently falls back to model 1's tensor. -/
theorem mismatch_policy_divergence :
    (mergeLoaded [("model1", [("k", ⟨[2], DType.float32, [1, 1]⟩)], 1/2),
        ("model2", [("k", ⟨[3], DType.float32, [2, 2, 2]⟩)],
          1/2)]).merged_state_dict.lookup "k" = none ∧
    "k" ∈ (mergeLoaded [("model1", [("k", ⟨[2], DType.float32, [1, 1]⟩)], 1/2),
        ("model2", [("k", ⟨[3], DType.float32, [2, 2, 2]⟩)], 1/2)]).skipped_keys ∧
    SDXLMergerInterface.merge_models [("k", ⟨[2], DType.float32, [1, 1]⟩)]
        [("k", ⟨[3], DType.float32, [2, 2, 2]⟩)] (1/2) (1/2) =
      some [("k", ⟨[2], DType.float32, [1, 1]⟩)] := by
  have hk : sortedKeysOf [("model1", [("k", ⟨[2], DType.float32, [1, 1]⟩)], 1/2),
      ("model2", [("k", ⟨[3], DType.float32, [2, 2, 2]⟩)], 1/2)] = ["k"] := by
    rw [sortedKeysOf, show allKeysOf [("model1", [("k", ⟨[2], DType.float32, [1, 1]⟩)], 1/2),
      ("model2", [("k", ⟨[3], DType.float32, [2, 2, 2]⟩)], 1/2)] = {"k"} from by decide,
      Finset.sort_singleton]
  refine ⟨?_, ?_, ?_⟩
  · rw [mergeLoaded]
    simp only [hk, List.foldl_cons, List.foldl_nil]
    norm_num [mergeStep, mergeOneKey, contribsOf, List.lookup, List.filterMap]
  · rw [mergeLoaded]
    simp only [hk, List.foldl_cons, List.foldl_nil]
    norm_num [mergeStep, mergeOneKey, contribsOf, List.lookup, List.filterMap]
  · rw [SDXLMergerInterface.merge_models, if_neg (by norm_num)]
    simp only [show (listKeys [("k", ⟨[2], DType.float32, [1, 1]⟩)]).toFinset ∪
        (listKeys [("k", ⟨[3], DType.float32, [2, 2, 2]⟩)]).toFinset = {"k"} from by decide,
      Finset.sort_singleton, List.foldl_cons, List.foldl_nil]
    norm_num [List.lookup]

/-! ### Claim C7 -/

namespace SDXLModelMerger

theorem listKeys_toFinset_congr {d1 d2 : StateDict}
    (h : ∀ k, d1.lookup k = d2.lookup k) :
    (listKeys d1).toFinset = (listKeys d2).toFinset := by
  apply Finset.ext
  intro k
  rw [List.mem_toFinset, List.mem_toFinset, ← lookup_isSome_iff, ← lookup_isSome_iff, h k]

theorem allKeysOf_congr {loaded loadedB : LoadedModels}
    (h : List.Forall₂ (fun a b => a.1 = b.1 ∧
      (∀ k, a.2.1.lookup k = b.2.1.lookup k) ∧ a.2.2 = b.2.2) loaded loadedB) :
    allKeysOf loaded = allKeysOf loadedB := by
  rw [allKeysOf, allKeysOf]
  suffices h2 : ∀ s : Finset String,
      loaded.foldl (fun s e => s ∪ (listKeys e.2.1).toFinset) s =
        loadedB.foldl (fun s e => s ∪ (listKeys e.2.1).toFinset) s from h2 ∅
  intro s
  induction h generalizing s with
  | nil => rfl
  | @cons a b l1 l2 hab htail ih =>
    simp only [List.foldl_cons]
    rw [listKeys_toFinset_congr hab.2.1]
    exact ih _

theorem contribsOf_congr {loaded loadedB : LoadedModels}
    (h : List.Forall₂ (fun a b => a.1 = b.1 ∧
      (∀ k, a.2.1.lookup k = b.2.1.lookup k) ∧ a.2.2 = b.2.2) loaded loadedB)
    (key : String) : contribsOf loaded key = contribsOf loadedB key := by
  rw [contribsOf, contribsOf]
  induction h with
  | nil => rfl
  | @cons a b l1 l2 hab htail ih =>
    simp only [List.filterMap_cons]
    rw [hab.2.1 key, hab.2.2]
    cases hbl : b.2.1.lookup key <;> simp [hbl, ih]

theorem mergeOneKey_congr {loaded loadedB : LoadedModels}
    (h : List.Forall₂ (fun a b => a.1 = b.1 ∧
      (∀ k, a.2.1.lookup k = b.2.1.lookup k) ∧ a.2.2 = b.2.2) loaded loadedB)
    (key : String) : mergeOneKey loaded key = mergeOneKey loadedB key := by
  rw [mergeOneKey, mergeOneKey, contribsOf_congr h key]

theorem foldl_mergeStep_congr {loaded loadedB : LoadedModels}
    (h : List.Forall₂ (fun a b => a.1 = b.1 ∧
      (∀ k, a.2.1.lookup k = b.2.1.lookup k) ∧ a.2.2 = b.2.2) loaded loadedB)
    (ks : List String) (acc : List (String × Tensor) × List String × ℕ) :
    ks.foldl (mergeStep loaded) acc = ks.foldl (mergeStep loadedB) acc := by
  induction ks generalizing acc with
  | nil => rfl
  | cons k rest ih =>
    rw [List.foldl_cons, List.foldl_cons,
      show mergeStep loaded acc k = mergeStep loadedB acc k from by
        rw [mergeStep, mergeStep, mergeOneKey_congr h], ih]

theorem weights_map_congr {loaded loadedB : LoadedModels}
    (h : List.Forall₂ (fun a b => a.1 = b.1 ∧
      (∀ k, a.2.1.lookup k = b.2.1.lookup k) ∧ a.2.2 = b.2.2) loaded loadedB) :
    (loaded.map fun e => e.2.2) = loadedB.map fun e => e.2.2 := by
  induction h with
  | nil => rfl
  | @cons a b l1 l2 hab htail ih =>
    simp only [List.map_cons]
    rw [hab.2.2, ih]

end SDXLModelMerger

open SDXLModelMerger in
/-- C7: merging is deterministic — two input lists that agree model-by-model on
names, weights and state-dict contents (each dict read as a key→tensor map,
whatever its native entry order) merge to identical results and reports, and
the output mapping is in lexicographically sorted key order. -/
theorem merge_deterministic (loaded loadedB : LoadedModels)
    (h : List.Forall₂ (fun a b => a.1 = b.1 ∧
      (∀ k, a.2.1.lookup k = b.2.1.lookup k) ∧ a.2.2 = b.2.2) loaded loadedB) :
    mergeLoaded loaded = mergeLoaded loadedB ∧
    List.Sorted (· ≤ ·) ((mergeLoaded loaded).merged_state_dict.map Prod.fst) := by
  constructor
  · rw [mergeLoaded, mergeLoaded]
    have hs : sortedKeysOf loaded = sortedKeysOf loadedB := by
      rw [sortedKeysOf, sortedKeysOf, allKeysOf_congr h]
    rw [hs, foldl_mergeStep_congr h, weights_map_congr h]
  · rw [mergeLoaded_dict, map_fst_keyedFilterMap]
    exact List.Pairwise.sublist (List.filter_sublist _) (sortedKeysOf_sorted loaded)

open SDXLModelMerger in
/-- Witness for C7: the same model given with its two dict entries in swapped
order merges to the same result, and output keys are sorted. -/
theorem merge_deterministic_witness :
    mergeLoaded [("m", [("a", ⟨[1], DType.float32, [1]⟩),
        ("b", ⟨[1], DType.float32, [2]⟩)], 1)] =
      mergeLoaded [("m", [("b", ⟨[1], DType.float32, [2]⟩),
        ("a", ⟨[1], DType.float32, [1]⟩)], 1)] ∧
    List.Sorted (· ≤ ·) ((mergeLoaded [("m", [("a", ⟨[1], DType.float32, [1]⟩),
      ("b", ⟨[1], DType.float32, [2]⟩)], 1)]).merged_state_dict.map Prod.fst) := by
  apply merge_deterministic
  refine List.Forall₂.cons ⟨rfl, ?_, rfl⟩ List.Forall₂.nil
  intro k
  by_cases h1 : k = "a"
  · subst h1; rfl
  · by_cases h2 : k = "b"
    · subst h2; rfl
    · rw [lookup_cons_of_ne _ h1, lookup_cons_of_ne _ h2, lookup_cons_of_ne _ h2,
        lookup_cons_of_ne _ h1]

/-! ### Claim C8 -/

open SDXLModelMerger in
/-- C8 (counterexample): merging a half-precision single input alone with
weight 1.0 is not the identity — the output tensor is widened to float32, so
the output mapping differs from the input mapping. -/
theorem single_input_identity_cex :
    (mergeLoaded [("m", [("a", ⟨[1], DType.float16, [1]⟩)], 1)]).merged_state_dict =
      [("a", ⟨[1], DType.float32, [1]⟩)] ∧
    [("a", (⟨[1], DType.float32, [1]⟩ : Tensor))] ≠
      [("a", ⟨[1], DType.float16, [1]⟩)] := by
  constructor
  · have hk : sortedKeysOf [("m", [("a", ⟨[1], DType.float16, [1]⟩)], 1)] = ["a"] := by
      rw [sortedKeysOf, show allKeysOf [("m", [("a", ⟨[1], DType.float16, [1]⟩)], 1)] =
        {"a"} from by decide, Finset.sort_singleton]
    rw [mergeLoaded]
    simp only [hk, List.foldl_cons, List.foldl_nil]
    norm_num [mergeStep, mergeOneKey, contribsOf, List.lookup, List.filterMap, tmul,
      tfloat, tdiv]
  · decide

open SDXLModelMerger in
/-- C8 (amended): merging a single input alone with weight 1.0 reproduces the
input mapping key-for-key with shapes and values unchanged, except that every
output tensor's dtype is float32 — so the identity holds exactly on inputs
whose tensors are already float32. -/
theorem single_input_identity (name : String) (sd : StateDict) (key : String) :
    (mergeLoaded [(name, sd, 1)]).merged_state_dict.lookup key =
      (sd.lookup key).map tfloat := by
  cases hl : sd.lookup key with
  | none =>
    have hnot : key ∉ listKeys sd := fun hmem => by
      have hsome := (lookup_isSome_iff sd key).mpr hmem
      rw [hl] at hsome
      exact absurd hsome (by simp)
    have hks : key ∉ sortedKeysOf [(name, sd, 1)] := by
      rw [mem_sortedKeysOf]
      rintro ⟨e, he, hk⟩
      rcases List.mem_cons.mp he with rfl | h2
      · exact hnot hk
      · exact absurd h2 (by simp)
    rw [mergeLoaded_lookup, if_neg hks]
    rfl
  | some t =>
    have hc : contribsOf [(name, sd, 1)] key = [(t, 1)] := by
      rw [contribsOf]
      simp [List.filterMap_cons, hl]
    have hks : key ∈ sortedKeysOf [(name, sd, 1)] :=
      contribsOf_mem_sortedKeys (by rw [hc]; exact List.cons_ne_nil _ _)
    rw [mergeLoaded_lookup, if_pos hks, mergeOneKey, hc]
    simp only [List.any_nil, Bool.false_eq_true, if_false, List.foldl_nil,
      List.map_cons, List.map_nil, List.sum_cons, List.sum_nil, add_zero,
      Option.map_some]
    rw [if_pos (by norm_num : (0 : ℚ) < 1)]
    congr 1
    ext1
    · rw [tdiv_shape, tmul_shape]
    · rw [tdiv_dtype, tmul_dtype]
    · show ((tfloat t).data.map fun x => x * 1).map (fun x => x / 1) = (tfloat t).data
      simp

open SDXLModelMerger in
/-- Witness for C10: a half-precision input yields an output tensor whose
dtype is float32. -/
theorem output_dtype_float32_witness :
    (⟨[1], DType.float32, [2]⟩ : Tensor).dtype = DType.float32 :=
  output_dtype_float32 [("m", [("a", ⟨[1], DType.float16, [2]⟩)], 1)] "a"
    ⟨[1], DType.float32, [2]⟩ (by
      have hk : sortedKeysOf [("m", [("a", ⟨[1], DType.float16, [2]⟩)], 1)] = ["a"] := by
        rw [sortedKeysOf, show allKeysOf [("m", [("a", ⟨[1], DType.float16, [2]⟩)], 1)] =
          {"a"} from by decide, Finset.sort_singleton]
      rw [mergeLoaded]
      simp only [hk, List.foldl_cons, List.foldl_nil]
      norm_num [mergeStep, mergeOneKey, contribsOf, List.lookup, List.filterMap, tmul,
        tfloat, tdiv])
